import Mathlib

/-!
Verification development for the El-Misk prayer-companion application.

The repository's own code under `src/` is a thin TypeScript layer:
`src/lib/adhan.ts` wraps a third-party astronomical library, and
`src/App.tsx` holds the Qibla bearing computation and the adhan-trigger
effect.  The astronomical solver and the current/next-prayer evaluator
live inside the third-party library, so they are modelled here from the
specification (sections 4.1 and 4.2); the Qibla calculation and the
adhan trigger are shallow embeddings of the `App.tsx` source itself,
with JavaScript numbers read as real numbers and wall-clock instants as
natural numbers of minutes.
-/

/-- Prayer labels as used by the schedule evaluator; `Prayer.none`
mirrors the library's value for "no active prayer window". -/
inductive Prayer where
  | none
  | fajr
  | sunrise
  | dhuhr
  | asr
  | maghrib
  | isha
deriving DecidableEq

/-- A solved prayer schedule for one civil day: six ordered instants.
The instant type is abstract so the evaluator can be stated over any
linearly ordered time scale. -/
structure Schedule (α : Type) where
  fajr : α
  sunrise : α
  dhuhr : α
  asr : α
  maghrib : α
  isha : α

/-- Modelled from the spec (section 4.2): the current prayer window for a
given `now`, with closed-open intervals — a boundary instant belongs to
the window it opens, and before fajr the window is `Prayer.none`. -/
def currentPrayer {α : Type} [LinearOrder α] (s : Schedule α) (now : α) : Prayer :=
  if s.isha ≤ now then Prayer.isha
  else if s.maghrib ≤ now then Prayer.maghrib
  else if s.asr ≤ now then Prayer.asr
  else if s.dhuhr ≤ now then Prayer.dhuhr
  else if s.sunrise ≤ now then Prayer.sunrise
  else if s.fajr ≤ now then Prayer.fajr
  else Prayer.none

/-- Modelled from the spec (section 4.2): the next prayer is the first
boundary strictly greater than `now`, wrapping to the next day's fajr
once `now` is at or past today's isha. -/
def nextPrayer {α : Type} [LinearOrder α] (s : Schedule α) (now : α) : Prayer :=
  if now < s.fajr then Prayer.fajr
  else if now < s.sunrise then Prayer.sunrise
  else if now < s.dhuhr then Prayer.dhuhr
  else if now < s.asr then Prayer.asr
  else if now < s.maghrib then Prayer.maghrib
  else if now < s.isha then Prayer.isha
  else Prayer.fajr

/-- Modelled from the spec: the schedule instant belonging to a prayer
label, with no instant for `Prayer.none`. -/
def timeForPrayer {α : Type} (s : Schedule α) : Prayer → Option α
  | Prayer.none => Option.none
  | Prayer.fajr => Option.some s.fajr
  | Prayer.sunrise => Option.some s.sunrise
  | Prayer.dhuhr => Option.some s.dhuhr
  | Prayer.asr => Option.some s.asr
  | Prayer.maghrib => Option.some s.maghrib
  | Prayer.isha => Option.some s.isha

/-- The six schedule boundaries in day order, paired with their labels. -/
def scheduleBoundaries {α : Type} (s : Schedule α) : List (Prayer × α) :=
  [(Prayer.fajr, s.fajr), (Prayer.sunrise, s.sunrise), (Prayer.dhuhr, s.dhuhr),
   (Prayer.asr, s.asr), (Prayer.maghrib, s.maghrib), (Prayer.isha, s.isha)]

/-- The five obligatory prayers scanned by the adhan trigger in
`App.tsx` (`const prayers = ['fajr', 'dhuhr', 'asr', 'maghrib', 'isha']`);
sunrise is deliberately absent. -/
def adhanList : List Prayer :=
  [Prayer.fajr, Prayer.dhuhr, Prayer.asr, Prayer.maghrib, Prayer.isha]

/-- One evaluation of the adhan `useEffect` in `App.tsx`, at wall-clock
minute resolution.  `now` is an absolute time in minutes, so
`now / 1440` is the calendar date and `now % 1440` the minute of day
(`getHours() * 60 + getMinutes()`).  `sched d p` is the minute of day of
prayer `p` on date `d`.  `last` is the `lastAdhanPlayed` de-duplication
key `(date, prayer)`.  The scan returns the first prayer whose minute
matches `now` and whose key differs from `last`, mirroring the `for`
loop with its `break`. -/
def adhanScan (sched : Nat → Prayer → Nat) (last : Option (Nat × Prayer))
    (now : Nat) : Option Prayer :=
  adhanList.find? fun p =>
    decide (now % 1440 = sched (now / 1440) p ∧ last ≠ Option.some (now / 1440, p))

/-- The fires produced by running the adhan effect over a trace of tick
instants, threading the `lastAdhanPlayed` state exactly as the component
does: a fire replaces the single stored key. -/
def adhanRun (sched : Nat → Prayer → Nat) : Option (Nat × Prayer) → List Nat →
    List (Nat × Prayer)
  | _, [] => []
  | last, t :: ts =>
    match adhanScan sched last t with
    | Option.some p => (t / 1440, p) :: adhanRun sched (Option.some (t / 1440, p)) ts
    | Option.none => adhanRun sched last ts

/-- An observer coordinate, as stored in the `location` objects of
`App.tsx`. -/
structure GeoCoordinate where
  latitude : ℝ
  longitude : ℝ

/-- Real-number semantics of JavaScript `Math.atan2 y x`. -/
noncomputable def atan2 (y x : ℝ) : ℝ :=
  if 0 < x then Real.arctan (y / x)
  else if x < 0 then
    (if 0 ≤ y then Real.arctan (y / x) + Real.pi else Real.arctan (y / x) - Real.pi)
  else if 0 < y then Real.pi / 2
  else if y < 0 then -(Real.pi / 2)
  else 0

/-- Real-number semantics of the JavaScript remainder operator `a % b`:
the remainder after truncated division, carrying the sign of the
dividend. -/
noncomputable def jsMod (a b : ℝ) : ℝ :=
  if 0 ≤ a / b then a - b * (⌊a / b⌋ : ℝ) else a - b * (⌈a / b⌉ : ℝ)

/-- Shallow embedding of the `qiblaAngle` computation in
`App.tsx` for a present location: the spherical initial-bearing formula
toward the Kaaba followed by `(qibla + 360) % 360`. -/
noncomputable def qiblaCompute (latitude longitude : ℝ) : ℝ :=
  let phiK := 21.4225 * Real.pi / 180
  let lambdaK := 39.8262 * Real.pi / 180
  let phi := latitude * Real.pi / 180
  let lambda := longitude * Real.pi / 180
  let y := Real.sin (lambdaK - lambda)
  let x := Real.cos phi * Real.tan phiK - Real.sin phi * Real.cos (lambdaK - lambda)
  let qibla := atan2 y x * 180 / Real.pi
  jsMod (qibla + 360) 360

/-- The full `qiblaAngle` memo of `App.tsx`, including its
`if (!location) return 0` branch. -/
noncomputable def qiblaAngle (location : Option GeoCoordinate) : ℝ :=
  match location with
  | Option.none => 0
  | Option.some c => qiblaCompute c.latitude c.longitude

/-- Modelled from the spec (section 4.3): the initial great-circle
bearing toward the Kaaba, in degrees, normalized into `[0, 360)`.  The
`atan2` value converted to degrees lies in `(-180, 180]`, so adding 360
exactly when negative is the normalization into `[0, 360)`. -/
noncomputable def specInitialBearing (latitude longitude : ℝ) : ℝ :=
  let phiK := 21.4225 * Real.pi / 180
  let lambdaK := 39.8262 * Real.pi / 180
  let phi := latitude * Real.pi / 180
  let lambda := longitude * Real.pi / 180
  let y := Real.sin (lambdaK - lambda)
  let x := Real.cos phi * Real.tan phiK - Real.sin phi * Real.cos (lambdaK - lambda)
  let b := atan2 y x * 180 / Real.pi
  if b < 0 then b + 360 else b

/-- Modelled from the spec (sections 4.1 and 9): the solar ephemeris for
one civil day — declination in radians and equation of time in minutes —
as produced by a standard astronomical approximation, which the spec
leaves as an open, pluggable choice. -/
structure SolarDay where
  decl : ℝ
  eqt : ℝ

/-- Modelled from the spec (section 3): a calculation-method parameter
bundle — fajr angle and isha angle in degrees, an optional fixed
isha interval in minutes after maghrib, and the juristic asr shadow
factor (1 standard, 2 Hanafi).  The spec's optional per-authority
fixed-minute adjustments are left out, as the spec pins none. -/
structure MethodParams where
  fajrAngle : ℝ
  ishaAngle : ℝ
  ishaInterval : Option ℝ
  asrShadow : ℝ

/-- The cosine of the hour angle at which the sun reaches altitude `α`
(radians), for latitude `φ` and declination `δ`: the argument of the
arccosine in the hour-angle equation of spec section 4.1. -/
noncomputable def cosArg (φ δ α : ℝ) : ℝ :=
  (Real.sin α - Real.sin φ * Real.sin δ) / (Real.cos φ * Real.cos δ)

/-- Modelled from the spec (section 4.1, steps 3-6): the hour-angle
solution in hours.  `Real.arccos` clamps arguments outside `[-1, 1]`,
which realizes the spec's requirement of a deterministic best-effort
result at extreme latitudes instead of a failure. -/
noncomputable def hourAngleH (φ δ α : ℝ) : ℝ :=
  Real.arccos (cosArg φ δ α) * (12 / Real.pi)

/-- Modelled from the spec (section 4.1, step 2): dhuhr is solar noon —
12:00 corrected by the longitude offset and the equation of time.  It
reads only the longitude and the day's ephemeris, never the method. -/
noncomputable def dhuhrTime (longitude : ℝ) (day : SolarDay) : ℝ :=
  12 - longitude / 15 - day.eqt / 60

/-- The solar altitude defining sunrise and maghrib: -0.833 degrees, in
radians (spec section 4.1, step 4). -/
noncomputable def sunriseAltitude : ℝ :=
  -(0.833 * Real.pi / 180)

/-- Modelled from the spec (section 4.1, step 3): the sun altitude at
which an object's shadow reaches `t` times its height plus the noon
shadow, for asr. -/
noncomputable def asrAltitude (φ δ t : ℝ) : ℝ :=
  Real.arctan (1 / (t + Real.tan |φ - δ|))

/-- Modelled from the spec (section 4.1): the AstronomicalTimeSolver.
All six instants are hours on the day's time axis, anchored at solar
noon, with the fajr/sunrise hour angles subtracted and the
asr/maghrib/isha ones added. -/
noncomputable def solveSchedule (latitude longitude : ℝ) (day : SolarDay)
    (m : MethodParams) : Schedule ℝ :=
  let φ := latitude * Real.pi / 180
  let δ := day.decl
  let noon := dhuhrTime longitude day
  let sunriseHA := hourAngleH φ δ sunriseAltitude
  { fajr := noon - hourAngleH φ δ (-(m.fajrAngle * Real.pi / 180))
    sunrise := noon - sunriseHA
    dhuhr := noon
    asr := noon + hourAngleH φ δ (asrAltitude φ δ m.asrShadow)
    maghrib := noon + sunriseHA
    isha :=
      match m.ishaInterval with
      | Option.some mins => noon + sunriseHA + mins / 60
      | Option.none => noon + hourAngleH φ δ (-(m.ishaAngle * Real.pi / 180)) }

/-- The Egyptian General Authority method bundle (fajr 19.5, isha 17.5,
standard asr), the default of `getPrayerTimes`. -/
noncomputable def egyptianMethod : MethodParams :=
  { fajrAngle := 19.5, ishaAngle := 17.5, ishaInterval := Option.none, asrShadow := 1 }

/-- The Muslim World League method bundle (fajr 18, isha 17, standard
asr). -/
noncomputable def muslimWorldLeagueMethod : MethodParams :=
  { fajrAngle := 18, ishaAngle := 17, ishaInterval := Option.none, asrShadow := 1 }

/-- The record returned by `getPrayerTimes` in `src/lib/adhan.ts`: the
six instants plus the evaluator's current/next labels and the instant of
the next prayer. -/
structure PrayerTimesOutput where
  fajr : ℝ
  sunrise : ℝ
  dhuhr : ℝ
  asr : ℝ
  maghrib : ℝ
  isha : ℝ
  current : Prayer
  next : Prayer
  timeForNext : Option ℝ

/-- Shallow embedding of `getPrayerTimes` from `src/lib/adhan.ts`.  The
source solves the schedule from (latitude, longitude, method, date) and
then calls `currentPrayer()`, `nextPrayer()` and
`timeForPrayer(nextPrayer())` with no time argument, so the library
defaults read the ambient wall clock.  `clock` is that hidden state
made explicit, as state passing: it is not a parameter of the
TypeScript function.  The six schedule fields never read it; `current`,
`next` and `timeForNext` do.  The solver and evaluator are modelled
from the spec since the astronomical library is outside the
repository. -/
noncomputable def getPrayerTimes (latitude longitude : ℝ) (m : MethodParams)
    (day : SolarDay) (clock : ℝ) : PrayerTimesOutput :=
  let s := solveSchedule latitude longitude day m
  { fajr := s.fajr
    sunrise := s.sunrise
    dhuhr := s.dhuhr
    asr := s.asr
    maghrib := s.maghrib
    isha := s.isha
    current := currentPrayer s clock
    next := nextPrayer s clock
    timeForNext := timeForPrayer s (nextPrayer s clock) }

/-- A concrete per-date prayer timetable (minute of day per prayer),
used to exercise the adhan trigger on an explicit trace. -/
def sampleTimetable : Nat → Prayer → Nat := fun _ p =>
  match p with
  | Prayer.none => 0
  | Prayer.fajr => 300
  | Prayer.sunrise => 420
  | Prayer.dhuhr => 720
  | Prayer.asr => 930
  | Prayer.maghrib => 1080
  | Prayer.isha => 1170

/-- A per-date timetable on which fajr and dhuhr share minute 300,
exercising the single-slot de-duplication key of the adhan effect. -/
def clashTimetable : Nat → Prayer → Nat := fun _ p =>
  match p with
  | Prayer.none => 0
  | Prayer.fajr => 300
  | Prayer.sunrise => 420
  | Prayer.dhuhr => 300
  | Prayer.asr => 930
  | Prayer.maghrib => 1080
  | Prayer.isha => 1170

/-- Chained strict-ordering facts for a well-formed schedule. -/
theorem schedule_chain {α : Type} [LinearOrder α] (s : Schedule α)
    (h1 : s.fajr < s.sunrise) (h2 : s.sunrise < s.dhuhr) (h3 : s.dhuhr < s.asr)
    (h4 : s.asr < s.maghrib) (h5 : s.maghrib < s.isha) :
    s.fajr < s.isha ∧ s.sunrise < s.isha ∧ s.dhuhr < s.isha ∧ s.asr < s.isha :=
  ⟨h1.trans (h2.trans (h3.trans (h4.trans h5))),
   h2.trans (h3.trans (h4.trans h5)), h3.trans (h4.trans h5), h4.trans h5⟩

/-- Claim C6: at an instant exactly equal to one of the six schedule
boundaries, `currentPrayer` reports the window that boundary opens —
intervals are closed on the lower end. -/
theorem boundary_opens_its_window {α : Type} [LinearOrder α] (s : Schedule α)
    (h1 : s.fajr < s.sunrise) (h2 : s.sunrise < s.dhuhr) (h3 : s.dhuhr < s.asr)
    (h4 : s.asr < s.maghrib) (h5 : s.maghrib < s.isha) :
    currentPrayer s s.fajr = Prayer.fajr ∧
    currentPrayer s s.sunrise = Prayer.sunrise ∧
    currentPrayer s s.dhuhr = Prayer.dhuhr ∧
    currentPrayer s s.asr = Prayer.asr ∧
    currentPrayer s s.maghrib = Prayer.maghrib ∧
    currentPrayer s s.isha = Prayer.isha := by
  obtain ⟨hfi, hsi, hdi, hai⟩ := schedule_chain s h1 h2 h3 h4 h5
  have hfd : s.fajr < s.dhuhr := h1.trans h2
  have hfa : s.fajr < s.asr := hfd.trans h3
  have hfm : s.fajr < s.maghrib := hfa.trans h4
  have hsd : s.sunrise < s.asr := h2.trans h3
  have hsm : s.sunrise < s.maghrib := hsd.trans h4
  have hdm : s.dhuhr < s.maghrib := h3.trans h4
  refine ⟨?_, ?_, ?_, ?_, ?_, ?_⟩ <;>
    simp [currentPrayer, not_le.mpr, h1, h2, h3, h4, h5, hfi, hsi, hdi, hai,
      hfd, hfa, hfm, hsd, hsm, hdm, not_le.mpr h1, not_le.mpr h2, not_le.mpr h3,
      not_le.mpr h4, not_le.mpr h5, not_le.mpr hfi, not_le.mpr hsi,
      not_le.mpr hdi, not_le.mpr hai, not_le.mpr hfd, not_le.mpr hfa,
      not_le.mpr hfm, not_le.mpr hsd, not_le.mpr hsm, not_le.mpr hdm]

/-- Witness for claim C6 at a concrete integer schedule. -/
theorem boundary_opens_its_window_witness :
    currentPrayer (⟨1, 2, 3, 4, 5, 6⟩ : Schedule ℤ) 1 = Prayer.fajr ∧
    currentPrayer (⟨1, 2, 3, 4, 5, 6⟩ : Schedule ℤ) 2 = Prayer.sunrise ∧
    currentPrayer (⟨1, 2, 3, 4, 5, 6⟩ : Schedule ℤ) 3 = Prayer.dhuhr ∧
    currentPrayer (⟨1, 2, 3, 4, 5, 6⟩ : Schedule ℤ) 4 = Prayer.asr ∧
    currentPrayer (⟨1, 2, 3, 4, 5, 6⟩ : Schedule ℤ) 5 = Prayer.maghrib ∧
    currentPrayer (⟨1, 2, 3, 4, 5, 6⟩ : Schedule ℤ) 6 = Prayer.isha :=
  boundary_opens_its_window _ (by decide) (by decide) (by decide) (by decide)
    (by decide)

/-- Claim C5: the reported next prayer is the first schedule boundary
strictly greater than `now`, and once `now` is at or past today's isha
the next prayer wraps to fajr instead of reporting no next prayer. -/
theorem next_is_first_future_boundary {α : Type} [LinearOrder α] (s : Schedule α)
    (now : α)
    (h1 : s.fajr < s.sunrise) (h2 : s.sunrise < s.dhuhr) (h3 : s.dhuhr < s.asr)
    (h4 : s.asr < s.maghrib) (h5 : s.maghrib < s.isha) :
    (∀ p t, (scheduleBoundaries s).find? (fun b => decide (now < b.2)) =
        Option.some (p, t) → nextPrayer s now = p ∧ now < t) ∧
    (s.isha ≤ now →
      (scheduleBoundaries s).find? (fun b => decide (now < b.2)) = Option.none ∧
      nextPrayer s now = Prayer.fajr ∧ nextPrayer s now ≠ Prayer.none) := by
  rcases lt_or_le now s.fajr with hf | hf
  · have hfind : (scheduleBoundaries s).find? (fun b => decide (now < b.2)) =
        Option.some (Prayer.fajr, s.fajr) := by
      simp [scheduleBoundaries, List.find?, hf]
    have hnext : nextPrayer s now = Prayer.fajr := by simp [nextPrayer, hf]
    refine ⟨fun p t hpt => ?_, fun hw => ?_⟩
    · rw [hfind] at hpt
      simp only [Option.some.injEq, Prod.mk.injEq] at hpt
      obtain ⟨rfl, rfl⟩ := hpt
      exact ⟨hnext, hf⟩
    · exact absurd (hf.trans (h1.trans (h2.trans (h3.trans (h4.trans h5)))))
        (not_lt.mpr hw)
  · rcases lt_or_le now s.sunrise with hs | hs
    · have hfind : (scheduleBoundaries s).find? (fun b => decide (now < b.2)) =
          Option.some (Prayer.sunrise, s.sunrise) := by
        simp [scheduleBoundaries, List.find?, not_lt.mpr hf, hs]
      have hnext : nextPrayer s now = Prayer.sunrise := by
        simp [nextPrayer, not_lt.mpr hf, hs]
      refine ⟨fun p t hpt => ?_, fun hw => ?_⟩
      · rw [hfind] at hpt
        simp only [Option.some.injEq, Prod.mk.injEq] at hpt
        obtain ⟨rfl, rfl⟩ := hpt
        exact ⟨hnext, hs⟩
      · exact absurd (hs.trans (h2.trans (h3.trans (h4.trans h5)))) (not_lt.mpr hw)
    · rcases lt_or_le now s.dhuhr with hd | hd
      · have hfind : (scheduleBoundaries s).find? (fun b => decide (now < b.2)) =
            Option.some (Prayer.dhuhr, s.dhuhr) := by
          simp [scheduleBoundaries, List.find?, not_lt.mpr hf, not_lt.mpr hs, hd]
        have hnext : nextPrayer s now = Prayer.dhuhr := by
          simp [nextPrayer, not_lt.mpr hf, not_lt.mpr hs, hd]
        refine ⟨fun p t hpt => ?_, fun hw => ?_⟩
        · rw [hfind] at hpt
          simp only [Option.some.injEq, Prod.mk.injEq] at hpt
          obtain ⟨rfl, rfl⟩ := hpt
          exact ⟨hnext, hd⟩
        · exact absurd (hd.trans (h3.trans (h4.trans h5))) (not_lt.mpr hw)
      · rcases lt_or_le now s.asr with ha | ha
        · have hfind : (scheduleBoundaries s).find? (fun b => decide (now < b.2)) =
              Option.some (Prayer.asr, s.asr) := by
            simp [scheduleBoundaries, List.find?, not_lt.mpr hf, not_lt.mpr hs,
              not_lt.mpr hd, ha]
          have hnext : nextPrayer s now = Prayer.asr := by
            simp [nextPrayer, not_lt.mpr hf, not_lt.mpr hs, not_lt.mpr hd, ha]
          refine ⟨fun p t hpt => ?_, fun hw => ?_⟩
          · rw [hfind] at hpt
            simp only [Option.some.injEq, Prod.mk.injEq] at hpt
            obtain ⟨rfl, rfl⟩ := hpt
            exact ⟨hnext, ha⟩
          · exact absurd (ha.trans (h4.trans h5)) (not_lt.mpr hw)
        · rcases lt_or_le now s.maghrib with hm | hm
          · have hfind : (scheduleBoundaries s).find? (fun b => decide (now < b.2)) =
                Option.some (Prayer.maghrib, s.maghrib) := by
              simp [scheduleBoundaries, List.find?, not_lt.mpr hf, not_lt.mpr hs,
                not_lt.mpr hd, not_lt.mpr ha, hm]
            have hnext : nextPrayer s now = Prayer.maghrib := by
              simp [nextPrayer, not_lt.mpr hf, not_lt.mpr hs, not_lt.mpr hd,
                not_lt.mpr ha, hm]
            refine ⟨fun p t hpt => ?_, fun hw => ?_⟩
            · rw [hfind] at hpt
              simp only [Option.some.injEq, Prod.mk.injEq] at hpt
              obtain ⟨rfl, rfl⟩ := hpt
              exact ⟨hnext, hm⟩
            · exact absurd (hm.trans h5) (not_lt.mpr hw)
          · rcases lt_or_le now s.isha with hi | hi
            · have hfind : (scheduleBoundaries s).find? (fun b => decide (now < b.2)) =
                  Option.some (Prayer.isha, s.isha) := by
                simp [scheduleBoundaries, List.find?, not_lt.mpr hf, not_lt.mpr hs,
                  not_lt.mpr hd, not_lt.mpr ha, not_lt.mpr hm, hi]
              have hnext : nextPrayer s now = Prayer.isha := by
                simp [nextPrayer, not_lt.mpr hf, not_lt.mpr hs, not_lt.mpr hd,
                  not_lt.mpr ha, not_lt.mpr hm, hi]
              refine ⟨fun p t hpt => ?_, fun hw => ?_⟩
              · rw [hfind] at hpt
                simp only [Option.some.injEq, Prod.mk.injEq] at hpt
                obtain ⟨rfl, rfl⟩ := hpt
                exact ⟨hnext, hi⟩
              · exact absurd hi (not_lt.mpr hw)
            · have hfind : (scheduleBoundaries s).find? (fun b => decide (now < b.2)) =
                  Option.none := by
                simp [scheduleBoundaries, List.find?, not_lt.mpr hf, not_lt.mpr hs,
                  not_lt.mpr hd, not_lt.mpr ha, not_lt.mpr hm, not_lt.mpr hi]
              have hnext : nextPrayer s now = Prayer.fajr := by
                simp [nextPrayer, not_lt.mpr hf, not_lt.mpr hs, not_lt.mpr hd,
                  not_lt.mpr ha, not_lt.mpr hm, not_lt.mpr hi]
              refine ⟨fun p t hpt => ?_, fun _ => ⟨hfind, hnext, ?_⟩⟩
              · rw [hfind] at hpt
                exact absurd hpt (by simp)
              · rw [hnext]
                decide

/-- Witness for claim C5: in the wrap region of a concrete integer
schedule there is no strictly future boundary and next is fajr. -/
theorem next_is_first_future_boundary_witness :
    (scheduleBoundaries (⟨1, 2, 3, 4, 5, 6⟩ : Schedule ℤ)).find?
        (fun b => decide ((6 : ℤ) < b.2)) = Option.none ∧
    nextPrayer (⟨1, 2, 3, 4, 5, 6⟩ : Schedule ℤ) 6 = Prayer.fajr ∧
    nextPrayer (⟨1, 2, 3, 4, 5, 6⟩ : Schedule ℤ) 6 ≠ Prayer.none :=
  (next_is_first_future_boundary (⟨1, 2, 3, 4, 5, 6⟩ : Schedule ℤ) 6 (by decide)
    (by decide) (by decide) (by decide) (by decide)).2 (by decide)

/-- Claim C4: the dhuhr instant never reads the method bundle, and the
asr instant reads only its juristic shadow factor. -/
theorem dhuhr_method_independent (latitude longitude : ℝ) (day : SolarDay)
    (m1 m2 : MethodParams) :
    (solveSchedule latitude longitude day m1).dhuhr =
      (solveSchedule latitude longitude day m2).dhuhr ∧
    (m1.asrShadow = m2.asrShadow →
      (solveSchedule latitude longitude day m1).asr =
        (solveSchedule latitude longitude day m2).asr) := by
  refine ⟨rfl, fun h => ?_⟩
  simp only [solveSchedule, h]

/-- Witness for claim C4: Egyptian and Muslim World League methods share
the standard asr shadow factor, so dhuhr and asr agree. -/
theorem dhuhr_method_independent_witness :
    (solveSchedule 30 31 ⟨0, 0⟩ egyptianMethod).dhuhr =
      (solveSchedule 30 31 ⟨0, 0⟩ muslimWorldLeagueMethod).dhuhr ∧
    (solveSchedule 30 31 ⟨0, 0⟩ egyptianMethod).asr =
      (solveSchedule 30 31 ⟨0, 0⟩ muslimWorldLeagueMethod).asr :=
  ⟨(dhuhr_method_independent 30 31 ⟨0, 0⟩ egyptianMethod muslimWorldLeagueMethod).1,
   (dhuhr_method_independent 30 31 ⟨0, 0⟩ egyptianMethod muslimWorldLeagueMethod).2
     rfl⟩

/-- Unfolding lemma: an empty tick trace produces no fires. -/
theorem adhanRun_nil (sched : Nat → Prayer → Nat) (last : Option (Nat × Prayer)) :
    adhanRun sched last [] = [] := rfl

/-- Unfolding lemma: a tick whose scan fires `p` prepends the fire and
stores its key. -/
theorem adhanRun_cons_some {sched : Nat → Prayer → Nat}
    {last : Option (Nat × Prayer)} {t : Nat} {ts : List Nat} {p : Prayer}
    (h : adhanScan sched last t = Option.some p) :
    adhanRun sched last (t :: ts) =
      (t / 1440, p) :: adhanRun sched (Option.some (t / 1440, p)) ts := by
  simp only [adhanRun]
  rw [h]

/-- Unfolding lemma: a tick whose scan finds nothing leaves the state
unchanged. -/
theorem adhanRun_cons_none {sched : Nat → Prayer → Nat}
    {last : Option (Nat × Prayer)} {t : Nat} {ts : List Nat}
    (h : adhanScan sched last t = Option.none) :
    adhanRun sched last (t :: ts) = adhanRun sched last ts := by
  simp only [adhanRun]
  rw [h]

/-- What a successful adhan scan guarantees: the fired prayer is one of
the five scanned ones, its minute of day equals the tick's, and its key
differs from the stored one. -/
theorem adhanScan_some (sched : Nat → Prayer → Nat) (last : Option (Nat × Prayer))
    (now : Nat) (p : Prayer) (h : adhanScan sched last now = Option.some p) :
    p ∈ adhanList ∧ now % 1440 = sched (now / 1440) p ∧
      last ≠ Option.some (now / 1440, p) := by
  unfold adhanScan at h
  have hmem := List.mem_of_find?_eq_some h
  have hpred := List.find?_some h
  have hprop := of_decide_eq_true hpred
  exact ⟨hmem, hprop.1, hprop.2⟩

/-- Every fire in a run names one of the five scanned prayers and comes
from a trace tick whose date and minute of day match it. -/
theorem adhanRun_mem (sched : Nat → Prayer → Nat) (ticks : List Nat) :
    ∀ (last : Option (Nat × Prayer)) (e : Nat × Prayer),
      e ∈ adhanRun sched last ticks →
      e.2 ∈ adhanList ∧
        ∃ t ∈ ticks, e.1 = t / 1440 ∧ t % 1440 = sched (t / 1440) e.2 := by
  induction ticks with
  | nil =>
    intro last e he
    rw [adhanRun_nil] at he
    exact absurd he (List.not_mem_nil e)
  | cons t ts ih =>
    intro last e he
    rcases hscan : adhanScan sched last t with _ | p
    · rw [adhanRun_cons_none hscan] at he
      obtain ⟨hmem, x, hx, h1, h2⟩ := ih last e he
      exact ⟨hmem, x, List.mem_cons_of_mem _ hx, h1, h2⟩
    · rw [adhanRun_cons_some hscan] at he
      rcases List.mem_cons.mp he with rfl | he'
      · obtain ⟨hp, hmod, _⟩ := adhanScan_some _ _ _ _ hscan
        exact ⟨hp, t, List.mem_cons_self t ts, rfl, hmod⟩
      · obtain ⟨hmem, x, hx, h1, h2⟩ := ih _ e he'
        exact ⟨hmem, x, List.mem_cons_of_mem _ hx, h1, h2⟩

/-- Once the key `(d, p)` is stored and the remaining ticks are at or
after the firing instant, the pair `(d, p)` can never fire again: re-use
of the same minute forces the same tick instant, where either the key
blocks the scan or a different prayer would need the same minute of day,
contradicting per-date distinctness. -/
theorem adhan_no_refire (sched : Nat → Prayer → Nat) (d : Nat) (p : Prayer)
    (hdist : ∀ d', ∀ q ∈ adhanList, ∀ r ∈ adhanList, sched d' q = sched d' r → q = r)
    (hp : p ∈ adhanList) :
    ∀ (ts : List Nat) (t0 : Nat), List.Pairwise (· ≤ ·) ts → (∀ x ∈ ts, t0 ≤ x) →
      t0 / 1440 = d → t0 % 1440 = sched d p →
      (d, p) ∉ adhanRun sched (Option.some (d, p)) ts := by
  intro ts
  induction ts with
  | nil =>
    intro t0 _ _ _ _ hmem
    rw [adhanRun_nil] at hmem
    exact List.not_mem_nil _ hmem
  | cons t ts' ih =>
    intro t0 hsort hbound hd hm hmem
    obtain ⟨hhead, hsort'⟩ := List.pairwise_cons.mp hsort
    have hbt : t0 ≤ t := hbound t (List.mem_cons_self t ts')
    rcases hscan : adhanScan sched (Option.some (d, p)) t with _ | q
    · rw [adhanRun_cons_none hscan] at hmem
      exact ih t0 hsort' (fun x hx => hbound x (List.mem_cons_of_mem _ hx)) hd hm hmem
    · rw [adhanRun_cons_some hscan] at hmem
      obtain ⟨hq, hmodq, hneq⟩ := adhanScan_some _ _ _ _ hscan
      rcases List.mem_cons.mp hmem with heq | hmem'
      · exact hneq (congrArg Option.some heq)
      · obtain ⟨_, x, hx, hx1, hx2⟩ := adhanRun_mem sched ts' _ _ hmem'
        have hxd : x / 1440 = d := hx1.symm
        have hxm : x % 1440 = sched d p := by
          rw [hxd] at hx2
          exact hx2
        have htx : t ≤ x := hhead x hx
        have hxt0 : x = t0 := by omega
        have ht0 : t = t0 := by omega
        have htd : t / 1440 = d := by omega
        rw [htd] at hmodq
        have hsp : sched d q = sched d p := by
          rw [← hmodq, ht0]
          exact hm
        have hqp : q = p := hdist d q hq p hp hsp
        apply hneq
        rw [hqp, htd]

/-- Over a non-decreasing tick trace, with per-date distinct prayer
minutes, the run never records the same `(date, prayer)` fire twice. -/
theorem adhanRun_nodup (sched : Nat → Prayer → Nat)
    (hdist : ∀ d, ∀ q ∈ adhanList, ∀ r ∈ adhanList, sched d q = sched d r → q = r) :
    ∀ (ticks : List Nat) (last0 : Option (Nat × Prayer)),
      List.Pairwise (· ≤ ·) ticks → (adhanRun sched last0 ticks).Nodup := by
  intro ticks
  induction ticks with
  | nil =>
    intro last0 _
    rw [adhanRun_nil]
    exact List.nodup_nil
  | cons t ts ih =>
    intro last0 hsort
    obtain ⟨hhead, hsort'⟩ := List.pairwise_cons.mp hsort
    rcases hscan : adhanScan sched last0 t with _ | p
    · rw [adhanRun_cons_none hscan]
      exact ih _ hsort'
    · rw [adhanRun_cons_some hscan]
      refine List.nodup_cons.mpr ⟨?_, ih _ hsort'⟩
      obtain ⟨hp, hmod, _⟩ := adhanScan_some _ _ _ _ hscan
      exact adhan_no_refire sched (t / 1440) p hdist hp ts t hsort' hhead rfl hmod

/-- Claim C9: the adhan trigger compares the tick's minute of day
against the five obligatory prayers only (sunrise never fires), and over
any non-decreasing tick trace — the clock contract — with the five
prayer minutes pairwise distinct on each date, it fires at most once per
(calendar date, prayer) pair within the run. -/
theorem adhan_at_most_once_per_date_prayer (sched : Nat → Prayer → Nat)
    (ticks : List Nat) (last0 : Option (Nat × Prayer))
    (hsort : List.Pairwise (· ≤ ·) ticks)
    (hdist : ∀ d, ∀ q ∈ adhanList, ∀ r ∈ adhanList, sched d q = sched d r → q = r) :
    (∀ e ∈ adhanRun sched last0 ticks, e.2 ≠ Prayer.sunrise ∧ e.2 ∈ adhanList) ∧
    (adhanRun sched last0 ticks).Nodup := by
  constructor
  · intro e he
    obtain ⟨hmem, _⟩ := adhanRun_mem sched ticks last0 e he
    refine ⟨fun hcontr => ?_, hmem⟩
    rw [hcontr] at hmem
    exact absurd hmem (by decide)
  · exact adhanRun_nodup sched hdist ticks last0 hsort

/-- Witness for claim C9 on a concrete trace: two ticks in fajr's
minute, one in dhuhr's, one two days later. -/
theorem adhan_at_most_once_per_date_prayer_witness :
    (∀ e ∈ adhanRun sampleTimetable Option.none [300, 300, 720, 1445100],
      e.2 ≠ Prayer.sunrise ∧ e.2 ∈ adhanList) ∧
    (adhanRun sampleTimetable Option.none [300, 300, 720, 1445100]).Nodup :=
  adhan_at_most_once_per_date_prayer sampleTimetable [300, 300, 720, 1445100]
    Option.none (by decide) (fun d => by simp only [sampleTimetable]; decide)

/-- `atan2` always lands in `(-pi, pi]`. -/
theorem atan2_bounds (y x : ℝ) : -Real.pi < atan2 y x ∧ atan2 y x ≤ Real.pi := by
  have hpi := Real.pi_pos
  have harc1 := Real.neg_pi_div_two_lt_arctan (y / x)
  have harc2 := Real.arctan_lt_pi_div_two (y / x)
  unfold atan2
  split_ifs with h1 h2 h3 h4 h5
  · exact ⟨by linarith, by linarith⟩
  · have hdiv : y / x ≤ 0 := div_nonpos_iff.mpr (Or.inl ⟨h3, h2.le⟩)
    have harc : Real.arctan (y / x) ≤ 0 := by
      have := Real.arctan_strictMono.monotone hdiv
      rwa [Real.arctan_zero] at this
    exact ⟨by linarith, by linarith⟩
  · have hy : y < 0 := not_le.mp h3
    have hdiv : 0 < y / x := div_pos_of_neg_of_neg hy h2
    have harc : 0 < Real.arctan (y / x) := by
      have := Real.arctan_strictMono hdiv
      rwa [Real.arctan_zero] at this
    exact ⟨by linarith, by linarith⟩
  · exact ⟨by linarith, by linarith⟩
  · exact ⟨by linarith, by linarith⟩
  · exact ⟨by linarith, by linarith⟩

/-- `atan2 0 x = 0` for positive `x`. -/
theorem atan2_zero_pos {x : ℝ} (hx : 0 < x) : atan2 0 x = 0 := by
  unfold atan2
  rw [if_pos hx, zero_div, Real.arctan_zero]

/-- `atan2 0 x = pi` for negative `x`. -/
theorem atan2_zero_neg {x : ℝ} (hx : x < 0) : atan2 0 x = Real.pi := by
  unfold atan2
  rw [if_neg (not_lt.mpr hx.le), if_pos hx, if_pos le_rfl, zero_div,
    Real.arctan_zero, zero_add]

/-- `atan2 0 0 = 0`, matching JavaScript's convention for `+0`. -/
theorem atan2_zero_zero : atan2 0 0 = 0 := by
  unfold atan2
  norm_num

/-- The JavaScript remainder with a nonnegative dividend and a positive
divisor is its floor remainder, in `[0, b)`. -/
theorem jsMod_norm (q : ℝ) (h1 : -180 < q) (h2 : q ≤ 180) :
    jsMod (q + 360) 360 = if q < 0 then q + 360 else q := by
  have hdiv : (0 : ℝ) ≤ (q + 360) / 360 := div_nonneg (by linarith) (by norm_num)
  unfold jsMod
  rw [if_pos hdiv]
  by_cases hq : q < 0
  · rw [if_pos hq]
    have hfl : ⌊(q + 360) / 360⌋ = 0 := by
      rw [Int.floor_eq_iff]
      push_cast
      constructor
      · exact hdiv
      · rw [div_lt_iff (by norm_num : (0 : ℝ) < 360)]
        linarith
    rw [hfl]
    push_cast
    ring
  · rw [if_neg hq]
    have hq' : 0 ≤ q := not_lt.mp hq
    have hfl : ⌊(q + 360) / 360⌋ = 1 := by
      rw [Int.floor_eq_iff]
      push_cast
      constructor
      · rw [le_div_iff (by norm_num : (0 : ℝ) < 360)]
        linarith
      · rw [div_lt_iff (by norm_num : (0 : ℝ) < 360)]
        linarith
    rw [hfl]
    push_cast
    ring

/-- Normalizing a bearing whose radian value lies in `(-pi, pi]`: the
code's `(q + 360) % 360` equals adding 360 exactly to negative degrees,
and the result lies in `[0, 360)`. -/
theorem bearing_normalize (t : ℝ) (hl : -Real.pi < t) (hr : t ≤ Real.pi) :
    jsMod (t * 180 / Real.pi + 360) 360 =
      (if t * 180 / Real.pi < 0 then t * 180 / Real.pi + 360
       else t * 180 / Real.pi) ∧
    0 ≤ jsMod (t * 180 / Real.pi + 360) 360 ∧
    jsMod (t * 180 / Real.pi + 360) 360 < 360 := by
  have hpi := Real.pi_pos
  have hq2 : t * 180 / Real.pi ≤ 180 := by
    rw [div_le_iff hpi]
    nlinarith
  have hq1 : -180 < t * 180 / Real.pi := by
    rw [lt_div_iff hpi]
    nlinarith
  rw [jsMod_norm _ hq1 hq2]
  refine ⟨rfl, ?_, ?_⟩ <;> split_ifs <;> linarith

/-- Claim C2: for every in-range observer coordinate, the code's Qibla
value equals the spec's initial-bearing formula normalized into
`[0, 360)`, and therefore lies in `[0, 360)`. -/
theorem qibla_matches_spec_bearing (lat lon : ℝ)
    (hlat1 : -90 ≤ lat) (hlat2 : lat ≤ 90)
    (hlon1 : -180 ≤ lon) (hlon2 : lon ≤ 180) :
    qiblaCompute lat lon = specInitialBearing lat lon ∧
    0 ≤ qiblaCompute lat lon ∧ qiblaCompute lat lon < 360 := by
  simp only [qiblaCompute, specInitialBearing]
  exact bearing_normalize _ (atan2_bounds _ _).1 (atan2_bounds _ _).2

/-- Witness for claim C2 at the concrete coordinate (30, 31). -/
theorem qibla_matches_spec_bearing_witness :
    qiblaCompute 30 31 = specInitialBearing 30 31 ∧
    0 ≤ qiblaCompute 30 31 ∧ qiblaCompute 30 31 < 360 :=
  qibla_matches_spec_bearing 30 31 (by norm_num) (by norm_num) (by norm_num)
    (by norm_num)

/-- On the Kaaba's meridian the east-west term vanishes; a negative
north-south term yields a due-south bearing of 180 degrees. -/
theorem qiblaCompute_meridian_neg (lat : ℝ)
    (hX : Real.cos (lat * Real.pi / 180) * Real.tan (21.4225 * Real.pi / 180) -
      Real.sin (lat * Real.pi / 180) * 1 < 0) :
    qiblaCompute lat 39.8262 = 180 := by
  have hpi := Real.pi_pos
  simp only [qiblaCompute]
  rw [sub_self, Real.sin_zero, Real.cos_zero, atan2_zero_neg hX]
  have h180 : Real.pi * 180 / Real.pi = 180 := by field_simp
  rw [h180, jsMod_norm 180 (by norm_num) (by norm_num)]
  norm_num

/-- On the Kaaba's meridian with a positive north-south term the bearing
is due north: 0 degrees. -/
theorem qiblaCompute_meridian_pos (lat : ℝ)
    (hX : 0 < Real.cos (lat * Real.pi / 180) * Real.tan (21.4225 * Real.pi / 180) -
      Real.sin (lat * Real.pi / 180) * 1) :
    qiblaCompute lat 39.8262 = 0 := by
  have hpi := Real.pi_pos
  simp only [qiblaCompute]
  rw [sub_self, Real.sin_zero, Real.cos_zero, atan2_zero_pos hX, zero_mul,
    zero_div, jsMod_norm 0 (by norm_num) (by norm_num)]
  norm_num

/-- Claim C7: at the Kaaba's own coordinate the Qibla computation
returns the real value 0 — the `atan2 0 0 = 0` fallback — and in this
real-number semantics no NaN or exception can arise. -/
theorem qibla_at_kaaba_fallback :
    qiblaAngle (Option.some ⟨21.4225, 39.8262⟩) = 0 := by
  show qiblaCompute 21.4225 39.8262 = 0
  have hpi := Real.pi_pos
  have hk2 : 21.4225 * Real.pi / 180 < Real.pi / 2 := by nlinarith
  have hk1 : -(Real.pi / 2) < 21.4225 * Real.pi / 180 := by nlinarith
  have hcos : 0 < Real.cos (21.4225 * Real.pi / 180) :=
    Real.cos_pos_of_mem_Ioo ⟨hk1, hk2⟩
  simp only [qiblaCompute]
  rw [sub_self, Real.sin_zero, Real.cos_zero]
  have hX : Real.cos (21.4225 * Real.pi / 180) * Real.tan (21.4225 * Real.pi / 180) -
      Real.sin (21.4225 * Real.pi / 180) * 1 = 0 := by
    have hs := Real.tan_mul_cos hcos.ne'
    nlinarith [hs]
  rw [hX, atan2_zero_zero, zero_mul, zero_div,
    jsMod_norm 0 (by norm_num) (by norm_num)]
  norm_num

/-- Claim C8: an observer on the Kaaba's meridian strictly north of it
gets bearing 180, and strictly south of it gets bearing 0. -/
theorem qibla_due_north_south (lat : ℝ) :
    (21.4225 < lat → lat ≤ 90 → qiblaCompute lat 39.8262 = 180) ∧
    (-90 ≤ lat → lat < 21.4225 → qiblaCompute lat 39.8262 = 0) := by
  have hpi := Real.pi_pos
  have hk2 : 21.4225 * Real.pi / 180 < Real.pi / 2 := by nlinarith
  have hk1 : -(Real.pi / 2) < 21.4225 * Real.pi / 180 := by nlinarith
  constructor
  · intro hgt hle
    apply qiblaCompute_meridian_neg
    rcases eq_or_lt_of_le hle with heq | hlt
    · rw [heq]
      have h90 : (90 : ℝ) * Real.pi / 180 = Real.pi / 2 := by ring
      rw [h90, Real.cos_pi_div_two, Real.sin_pi_div_two]
      norm_num
    · have hup : lat * Real.pi / 180 < Real.pi / 2 := by nlinarith
      have hlow : -(Real.pi / 2) < lat * Real.pi / 180 := by nlinarith
      have htan : Real.tan (21.4225 * Real.pi / 180) <
          Real.tan (lat * Real.pi / 180) :=
        Real.tan_lt_tan_of_lt_of_lt_pi_div_two hk1 hup (by nlinarith)
      have hcos : 0 < Real.cos (lat * Real.pi / 180) :=
        Real.cos_pos_of_mem_Ioo ⟨hlow, hup⟩
      have hs := Real.tan_mul_cos hcos.ne'
      nlinarith [mul_pos hcos (sub_pos.mpr htan)]
  · intro hge hlt
    apply qiblaCompute_meridian_pos
    rcases eq_or_lt_of_le hge with heq | hgt
    · rw [← heq]
      have h90 : (-90 : ℝ) * Real.pi / 180 = -(Real.pi / 2) := by ring
      rw [h90, Real.cos_neg, Real.cos_pi_div_two, Real.sin_neg,
        Real.sin_pi_div_two]
      norm_num
    · have hup : lat * Real.pi / 180 < Real.pi / 2 := by nlinarith
      have hlow : -(Real.pi / 2) < lat * Real.pi / 180 := by nlinarith
      have htan : Real.tan (lat * Real.pi / 180) <
          Real.tan (21.4225 * Real.pi / 180) :=
        Real.tan_lt_tan_of_lt_of_lt_pi_div_two hlow hk2 (by nlinarith)
      have hcos : 0 < Real.cos (lat * Real.pi / 180) :=
        Real.cos_pos_of_mem_Ioo ⟨hlow, hup⟩
      have hs := Real.tan_mul_cos hcos.ne'
      nlinarith [mul_pos hcos (sub_pos.mpr htan)]

/-- Witness for claim C8: due north at latitude 30 the bearing is 180;
due south at latitude 0 it is 0. -/
theorem qibla_due_north_south_witness :
    qiblaCompute 30 39.8262 = 180 ∧ qiblaCompute 0 39.8262 = 0 :=
  ⟨(qibla_due_north_south 30).1 (by norm_num) (by norm_num),
   (qibla_due_north_south 0).2 (by norm_num) (by norm_num)⟩

/-- Claim C10: with no location available the Qibla memo returns 0,
indistinguishable from the genuine due-north bearing that an observer
due south of the Kaaba obtains. -/
theorem qibla_no_location_returns_zero :
    qiblaAngle Option.none = 0 ∧ qiblaAngle (Option.some ⟨0, 39.8262⟩) = 0 := by
  have hpi := Real.pi_pos
  have hk2 : 21.4225 * Real.pi / 180 < Real.pi / 2 := by nlinarith
  refine ⟨rfl, ?_⟩
  show qiblaCompute 0 39.8262 = 0
  apply qiblaCompute_meridian_pos
  have h0 : (0 : ℝ) * Real.pi / 180 = 0 := by ring
  rw [h0, Real.cos_zero, Real.sin_zero]
  have htan : 0 < Real.tan (21.4225 * Real.pi / 180) :=
    Real.tan_pos_of_pos_of_lt_pi_div_two (by positivity) hk2
  nlinarith

/-- Hour-angle comparison: a lower target altitude (within the sine-
monotone band) has the larger hour angle, provided both arccosArgs stay
inside the solvable interval `[-1, 1]`. -/
theorem hourAngleH_lt (φ δ α β : ℝ) (hD : 0 < Real.cos φ * Real.cos δ)
    (hα : α ∈ Set.Icc (-(Real.pi / 2)) (Real.pi / 2))
    (hβ : β ∈ Set.Icc (-(Real.pi / 2)) (Real.pi / 2))
    (hαβ : α < β) (hlow : -1 ≤ cosArg φ δ α) (hhigh : cosArg φ δ β ≤ 1) :
    hourAngleH φ δ β < hourAngleH φ δ α := by
  have hsin : Real.sin α < Real.sin β := Real.strictMonoOn_sin hα hβ hαβ
  have hA : cosArg φ δ α < cosArg φ δ β := by
    unfold cosArg
    rw [div_lt_div_right hD]
    linarith
  have harc : Real.arccos (cosArg φ δ β) < Real.arccos (cosArg φ δ α) :=
    Real.strictAntiOn_arccos ⟨hlow, hA.le.trans hhigh⟩ ⟨hlow.trans hA.le, hhigh⟩ hA
  unfold hourAngleH
  exact mul_lt_mul_of_pos_right harc (by positivity)

/-- A boundary whose arccosArg is strictly below 1 sits a positive hour
angle away from noon. -/
theorem hourAngleH_pos (φ δ α : ℝ) (h : cosArg φ δ α < 1) :
    0 < hourAngleH φ δ α := by
  unfold hourAngleH
  exact mul_pos (Real.arccos_pos.mpr h) (by positivity)

/-- Claim C3: for valid inputs away from the high-latitude degeneracy —
positive `cos φ · cos δ`, method angles in `(0.833, 90]`, and every
hour-angle equation solvable (its arccosArg inside `[-1, 1)` as
needed) — the solved schedule is strictly ordered:
fajr < sunrise < dhuhr < asr < maghrib < isha. -/
theorem schedule_strict_ordering (lat lon : ℝ) (day : SolarDay) (m : MethodParams)
    (hD : 0 < Real.cos (lat * Real.pi / 180) * Real.cos day.decl)
    (hfa1 : 0.833 < m.fajrAngle) (hfa2 : m.fajrAngle ≤ 90)
    (hfbound : -1 ≤ cosArg (lat * Real.pi / 180) day.decl
      (-(m.fajrAngle * Real.pi / 180)))
    (hs1 : cosArg (lat * Real.pi / 180) day.decl sunriseAltitude < 1)
    (hs2 : -1 ≤ cosArg (lat * Real.pi / 180) day.decl sunriseAltitude)
    (ha1 : cosArg (lat * Real.pi / 180) day.decl
      (asrAltitude (lat * Real.pi / 180) day.decl m.asrShadow) < 1)
    (hshadow : 0 < m.asrShadow + Real.tan |lat * Real.pi / 180 - day.decl|)
    (hisha : (∀ mins, m.ishaInterval = Option.some mins → 0 < mins) ∧
      (m.ishaInterval = Option.none → 0.833 < m.ishaAngle ∧ m.ishaAngle ≤ 90 ∧
        -1 ≤ cosArg (lat * Real.pi / 180) day.decl
          (-(m.ishaAngle * Real.pi / 180)))) :
    (solveSchedule lat lon day m).fajr < (solveSchedule lat lon day m).sunrise ∧
    (solveSchedule lat lon day m).sunrise < (solveSchedule lat lon day m).dhuhr ∧
    (solveSchedule lat lon day m).dhuhr < (solveSchedule lat lon day m).asr ∧
    (solveSchedule lat lon day m).asr < (solveSchedule lat lon day m).maghrib ∧
    (solveSchedule lat lon day m).maghrib < (solveSchedule lat lon day m).isha := by
  have hpi := Real.pi_pos
  have hsunIcc : sunriseAltitude ∈ Set.Icc (-(Real.pi / 2)) (Real.pi / 2) := by
    unfold sunriseAltitude
    constructor <;> nlinarith
  have hfajrIcc : -(m.fajrAngle * Real.pi / 180) ∈
      Set.Icc (-(Real.pi / 2)) (Real.pi / 2) := by
    constructor <;> nlinarith
  have hfs : -(m.fajrAngle * Real.pi / 180) < sunriseAltitude := by
    unfold sunriseAltitude
    nlinarith
  have hasrIcc : asrAltitude (lat * Real.pi / 180) day.decl m.asrShadow ∈
      Set.Icc (-(Real.pi / 2)) (Real.pi / 2) := by
    unfold asrAltitude
    exact ⟨(Real.neg_pi_div_two_lt_arctan _).le, (Real.arctan_lt_pi_div_two _).le⟩
  have hasrPos : 0 < asrAltitude (lat * Real.pi / 180) day.decl m.asrShadow := by
    unfold asrAltitude
    have hx : 0 < 1 / (m.asrShadow + Real.tan |lat * Real.pi / 180 - day.decl|) :=
      by positivity
    have := Real.arctan_strictMono hx
    rwa [Real.arctan_zero] at this
  have hsa : sunriseAltitude < asrAltitude (lat * Real.pi / 180) day.decl
      m.asrShadow := by
    have : sunriseAltitude < 0 := by
      unfold sunriseAltitude
      nlinarith
    linarith
  refine ⟨?_, ?_, ?_, ?_, ?_⟩
  · simp only [solveSchedule]
    have := hourAngleH_lt (lat * Real.pi / 180) day.decl
      (-(m.fajrAngle * Real.pi / 180)) sunriseAltitude hD hfajrIcc hsunIcc hfs
      hfbound hs1.le
    linarith
  · simp only [solveSchedule]
    have := hourAngleH_pos (lat * Real.pi / 180) day.decl sunriseAltitude hs1
    linarith
  · simp only [solveSchedule]
    have := hourAngleH_pos (lat * Real.pi / 180) day.decl
      (asrAltitude (lat * Real.pi / 180) day.decl m.asrShadow) ha1
    linarith
  · simp only [solveSchedule]
    have := hourAngleH_lt (lat * Real.pi / 180) day.decl sunriseAltitude
      (asrAltitude (lat * Real.pi / 180) day.decl m.asrShadow) hD hsunIcc
      hasrIcc hsa hs2 ha1.le
    linarith
  · simp only [solveSchedule]
    rcases hm : m.ishaInterval with _ | mins
    · obtain ⟨hia1, hia2, hibound⟩ := hisha.2 hm
      have hishaIcc : -(m.ishaAngle * Real.pi / 180) ∈
          Set.Icc (-(Real.pi / 2)) (Real.pi / 2) := by
        constructor <;> nlinarith
      have his : -(m.ishaAngle * Real.pi / 180) < sunriseAltitude := by
        unfold sunriseAltitude
        nlinarith
      have := hourAngleH_lt (lat * Real.pi / 180) day.decl
        (-(m.ishaAngle * Real.pi / 180)) sunriseAltitude hD hishaIcc hsunIcc his
        hibound hs1.le
      show dhuhrTime lon day + hourAngleH (lat * Real.pi / 180) day.decl
          sunriseAltitude < dhuhrTime lon day +
          hourAngleH (lat * Real.pi / 180) day.decl
            (-(m.ishaAngle * Real.pi / 180))
      linarith
    · have hmins : 0 < mins := hisha.1 mins hm
      show dhuhrTime lon day + hourAngleH (lat * Real.pi / 180) day.decl
          sunriseAltitude < dhuhrTime lon day +
          hourAngleH (lat * Real.pi / 180) day.decl sunriseAltitude + mins / 60
      linarith

/-- Witness for claim C3: at the equator on an equinox-like day under
the Egyptian method, every solvability hypothesis holds and the
schedule is strictly ordered. -/
theorem schedule_strict_ordering_witness :
    (solveSchedule 0 0 ⟨0, 0⟩ egyptianMethod).fajr <
      (solveSchedule 0 0 ⟨0, 0⟩ egyptianMethod).sunrise ∧
    (solveSchedule 0 0 ⟨0, 0⟩ egyptianMethod).sunrise <
      (solveSchedule 0 0 ⟨0, 0⟩ egyptianMethod).dhuhr ∧
    (solveSchedule 0 0 ⟨0, 0⟩ egyptianMethod).dhuhr <
      (solveSchedule 0 0 ⟨0, 0⟩ egyptianMethod).asr ∧
    (solveSchedule 0 0 ⟨0, 0⟩ egyptianMethod).asr <
      (solveSchedule 0 0 ⟨0, 0⟩ egyptianMethod).maghrib ∧
    (solveSchedule 0 0 ⟨0, 0⟩ egyptianMethod).maghrib <
      (solveSchedule 0 0 ⟨0, 0⟩ egyptianMethod).isha := by
  have hpi := Real.pi_pos
  have hz : (0 : ℝ) * Real.pi / 180 = 0 := by ring
  have hred : ∀ α : ℝ, cosArg (0 * Real.pi / 180) (⟨0, 0⟩ : SolarDay).decl α =
      Real.sin α := by
    intro α
    show cosArg (0 * Real.pi / 180) 0 α = Real.sin α
    unfold cosArg
    rw [hz]
    simp
  have hasr : asrAltitude (0 * Real.pi / 180) (⟨0, 0⟩ : SolarDay).decl
      egyptianMethod.asrShadow = Real.pi / 4 := by
    show asrAltitude (0 * Real.pi / 180) 0 1 = Real.pi / 4
    unfold asrAltitude
    rw [hz]
    norm_num [Real.tan_zero, Real.arctan_one]
  refine schedule_strict_ordering 0 0 ⟨0, 0⟩ egyptianMethod ?_ ?_ ?_ ?_ ?_ ?_ ?_
    ?_ ?_
  · show (0 : ℝ) < Real.cos (0 * Real.pi / 180) * Real.cos 0
    rw [hz]
    norm_num
  · norm_num [egyptianMethod]
  · norm_num [egyptianMethod]
  · rw [hred]
    exact Real.neg_one_le_sin _
  · rw [hred]
    show Real.sin sunriseAltitude < 1
    unfold sunriseAltitude
    have hneg : Real.sin (-(0.833 * Real.pi / 180)) < 0 :=
      Real.sin_neg_of_neg_of_neg_pi_lt (by nlinarith) (by nlinarith)
    linarith
  · rw [hred]
    exact Real.neg_one_le_sin _
  · rw [hred, hasr, Real.sin_pi_div_four]
    have h2 : Real.sqrt 2 < 2 := by
      nlinarith [Real.sq_sqrt (show (0 : ℝ) ≤ 2 by norm_num),
        Real.sqrt_nonneg 2]
    linarith
  · show (0 : ℝ) < egyptianMethod.asrShadow + Real.tan |0 * Real.pi / 180 - 0|
    rw [hz]
    show (0 : ℝ) < 1 + Real.tan |0 - 0|
    norm_num [Real.tan_zero]
  · constructor
    · intro mins hmm
      exact absurd hmm (by simp [egyptianMethod])
    · intro _
      refine ⟨by norm_num [egyptianMethod], by norm_num [egyptianMethod], ?_⟩
      rw [hred]
      exact Real.neg_one_le_sin _

/-- For a depression angle `a` in `[0, pi/2]`, the hour-angle arccosine
evaluates in closed form: `arccos (sin (-a)) = pi/2 + a`. -/
theorem arccos_sin_neg (a : ℝ) (h1 : 0 ≤ a) (h2 : a ≤ Real.pi / 2) :
    Real.arccos (Real.sin (-a)) = Real.pi / 2 + a := by
  have hpi := Real.pi_pos
  have hc : Real.cos (Real.pi / 2 + a) = -Real.sin a := by
    rw [Real.cos_add, Real.cos_pi_div_two, Real.sin_pi_div_two]
    ring
  rw [Real.sin_neg, ← hc]
  exact Real.arccos_cos (by linarith) (by linarith)

/-- Closed-form boundary instants of the Egyptian-method schedule at the
equator on a day with zero declination and equation of time. -/
theorem equator_schedule_values :
    (solveSchedule 0 0 ⟨0, 0⟩ egyptianMethod).fajr = 4.7 ∧
    (solveSchedule 0 0 ⟨0, 0⟩ egyptianMethod).sunrise = 6 - 0.833 * 12 / 180 ∧
    (solveSchedule 0 0 ⟨0, 0⟩ egyptianMethod).dhuhr = 12 := by
  have hpi := Real.pi_pos
  have hpin : Real.pi ≠ 0 := ne_of_gt hpi
  have hz : (0 : ℝ) * Real.pi / 180 = 0 := by ring
  have hred : ∀ α : ℝ, cosArg (0 * Real.pi / 180) (⟨0, 0⟩ : SolarDay).decl α =
      Real.sin α := by
    intro α
    show cosArg (0 * Real.pi / 180) 0 α = Real.sin α
    unfold cosArg
    rw [hz]
    simp
  have hHA : ∀ a : ℝ, 0 ≤ a → a ≤ Real.pi / 2 →
      hourAngleH (0 * Real.pi / 180) (⟨0, 0⟩ : SolarDay).decl (-a) =
        (Real.pi / 2 + a) * (12 / Real.pi) := by
    intro a h1 h2
    unfold hourAngleH
    rw [hred, arccos_sin_neg a h1 h2]
  have hred0 : ∀ α : ℝ, cosArg (0 * Real.pi / 180) 0 α = Real.sin α := by
    intro α
    unfold cosArg
    rw [hz]
    simp
  have hHA0 : ∀ a : ℝ, 0 ≤ a → a ≤ Real.pi / 2 →
      hourAngleH (0 * Real.pi / 180) 0 (-a) =
        (Real.pi / 2 + a) * (12 / Real.pi) := by
    intro a h1 h2
    unfold hourAngleH
    rw [hred0, arccos_sin_neg a h1 h2]
  have hnoon : dhuhrTime 0 ⟨0, 0⟩ = 12 := by
    unfold dhuhrTime
    norm_num
  refine ⟨?_, ?_, ?_⟩
  · simp only [solveSchedule, egyptianMethod]
    rw [hnoon, hHA (19.5 * Real.pi / 180) (by positivity) (by nlinarith)]
    field_simp
    ring
  · simp only [solveSchedule, egyptianMethod]
    rw [hnoon]
    unfold sunriseAltitude
    rw [hHA0 (0.833 * Real.pi / 180) (by positivity) (by nlinarith)]
    field_simp
    ring
  · simp only [solveSchedule, egyptianMethod]
    exact hnoon

/-- Claim C1, refuted: with latitude, longitude, method and date all
fixed, the `current`/`next`/`timeForNext` fields follow the ambient
wall clock read by the library's no-argument defaults — `next` is fajr
when the clock reads 03:00 but dhuhr at 10:00 — while the six schedule
fields are clock-independent. -/
theorem getPrayerTimes_clock_sensitivity :
    (getPrayerTimes 0 0 egyptianMethod ⟨0, 0⟩ 3).next = Prayer.fajr ∧
    (getPrayerTimes 0 0 egyptianMethod ⟨0, 0⟩ 10).next = Prayer.dhuhr ∧
    (getPrayerTimes 0 0 egyptianMethod ⟨0, 0⟩ 3).next ≠
      (getPrayerTimes 0 0 egyptianMethod ⟨0, 0⟩ 10).next ∧
    (getPrayerTimes 0 0 egyptianMethod ⟨0, 0⟩ 3).fajr =
      (getPrayerTimes 0 0 egyptianMethod ⟨0, 0⟩ 10).fajr ∧
    (getPrayerTimes 0 0 egyptianMethod ⟨0, 0⟩ 3).sunrise =
      (getPrayerTimes 0 0 egyptianMethod ⟨0, 0⟩ 10).sunrise ∧
    (getPrayerTimes 0 0 egyptianMethod ⟨0, 0⟩ 3).dhuhr =
      (getPrayerTimes 0 0 egyptianMethod ⟨0, 0⟩ 10).dhuhr ∧
    (getPrayerTimes 0 0 egyptianMethod ⟨0, 0⟩ 3).asr =
      (getPrayerTimes 0 0 egyptianMethod ⟨0, 0⟩ 10).asr ∧
    (getPrayerTimes 0 0 egyptianMethod ⟨0, 0⟩ 3).maghrib =
      (getPrayerTimes 0 0 egyptianMethod ⟨0, 0⟩ 10).maghrib ∧
    (getPrayerTimes 0 0 egyptianMethod ⟨0, 0⟩ 3).isha =
      (getPrayerTimes 0 0 egyptianMethod ⟨0, 0⟩ 10).isha := by
  obtain ⟨hf, hs, hd⟩ := equator_schedule_values
  have h3 : nextPrayer (solveSchedule 0 0 ⟨0, 0⟩ egyptianMethod) (3 : ℝ) =
      Prayer.fajr := by
    unfold nextPrayer
    rw [hf, if_pos (by norm_num : (3 : ℝ) < 4.7)]
  have h10 : nextPrayer (solveSchedule 0 0 ⟨0, 0⟩ egyptianMethod) (10 : ℝ) =
      Prayer.dhuhr := by
    unfold nextPrayer
    rw [hf, hs, hd, if_neg (by norm_num : ¬(10 : ℝ) < 4.7),
      if_neg (by norm_num : ¬(10 : ℝ) < 6 - 0.833 * 12 / 180),
      if_pos (by norm_num : (10 : ℝ) < 12)]
  refine ⟨h3, h10, ?_, rfl, rfl, rfl, rfl, rfl, rfl⟩
  show nextPrayer (solveSchedule 0 0 ⟨0, 0⟩ egyptianMethod) (3 : ℝ) ≠
    nextPrayer (solveSchedule 0 0 ⟨0, 0⟩ egyptianMethod) (10 : ℝ)
  rw [h3, h10]
  decide

/-- Counterexample for claim C9 as stated: when fajr and dhuhr share
minute 300, three ticks in that minute fire fajr, then dhuhr, then fajr
again — the pair (date 0, fajr) fires twice, because `lastAdhanPlayed`
holds a single key. -/
theorem adhan_refire_counterexample :
    adhanRun clashTimetable Option.none [300, 300, 300] =
      [(0, Prayer.fajr), (0, Prayer.dhuhr), (0, Prayer.fajr)] ∧
    ¬ (adhanRun clashTimetable Option.none [300, 300, 300]).Nodup := by
  constructor
  · decide
  · decide
